import Mathlib

/-!
Verification of the version-comparison and compatibility-search logic of
`vsix_extraction.py`.

Strings are modelled as `List Char` (Python `str` is compared by code
points, as `Char.toNat` is here).  Python functions that can raise an
exception on some inputs are modelled as `Option`-valued: `none` stands
for an uncaught exception escaping the function.
-/

namespace Vsix

/-- Python substring test `pat in s`: `pat` occurs contiguously in `s`. -/
def containsSub (pat : List Char) : List Char → Bool
  | [] => pat.isEmpty
  | l@(_ :: rest) => pat.isPrefixOf l || containsSub pat rest

/-- The `comparison_operators` dict of the script, in insertion order. -/
def comparison_operators : List (List Char × Int) :=
  [("<".toList, -1), ("<=".toList, -1), (">".toList, 1),
   (">=".toList, 1), ("==".toList, 0)]

/-- The character class `[<>=]` of the operator-matching regex. -/
def isOpChar (c : Char) : Bool :=
  c = '<' || c = '>' || c = '='

/-- Model of `re.match(r"([<>=]+)?(.+)", s)`: the greedy optional group takes the
maximal leading run of `[<>=]` characters, backing off one character when
`(.+)` would otherwise have nothing left to match (`.` does not match a
newline, and the second group stops at the first newline).  `none` is a
failed match (the script then raises `AttributeError`). -/
def regexMatch (s : List Char) : Option (List Char × List Char) :=
  let k := (s.takeWhile isOpChar).length
  if k < s.length ∧ s.getD k '\n' ≠ '\n' then
    some (s.take k, (s.drop k).takeWhile (fun c => c ≠ '\n'))
  else if 1 ≤ k then
    some (s.take (k - 1), (s.drop (k - 1)).takeWhile (fun c => c ≠ '\n'))
  else
    none

/-- Python `parse_version_string`: when some operator key occurs anywhere in the
string, run the regex and look the captured group up in
`comparison_operators` (defaulting to `0`); otherwise return the string
unchanged with code `0`. -/
def parse_version_string (s : List Char) : Option (Int × List Char) :=
  if comparison_operators.any (fun p => containsSub p.1 s) then
    match regexMatch s with
    | some (op, ver) => some ((comparison_operators.lookup op).getD 0, ver)
    | none => none
  else
    some (0, s)

/-- A version-body token: `int(part)` when `part.isdigit()`, else the
string itself. -/
inductive VToken where
  | int (n : Nat)
  | str (s : List Char)
deriving DecidableEq, Repr

/-- Value of an all-digit token. -/
def digitsToNat (part : List Char) : Nat :=
  part.foldl (fun n c => n * 10 + (c.toNat - 48)) 0

/-- Python `int(part) if part.isdigit() else part`. -/
def toToken (part : List Char) : VToken :=
  if part ≠ [] ∧ part.all Char.isDigit then VToken.int (digitsToNat part)
  else VToken.str part

/-- Split a version body on `.` and coerce every token. -/
def versionTokens (p : List Char) : List VToken :=
  (p.splitOn '.').map toToken

/-- Python string `<` (lexicographic by code point). -/
def strLt : List Char → List Char → Bool
  | [], [] => false
  | [], _ :: _ => true
  | _ :: _, [] => false
  | a :: as, b :: bs =>
    if a.toNat < b.toNat then true
    else if b.toNat < a.toNat then false
    else strLt as bs

/-- One iteration of the comparison loop: `some r` when the loop returns
`r` at this position, `none` when it falls through to the next one. -/
def cmpStep : VToken → VToken → Option Int
  | VToken.int a, VToken.int b =>
    if a < b then some (-1) else if b < a then some 1 else none
  | VToken.int _, VToken.str _ => some (-1)
  | VToken.str _, VToken.int _ => some 1
  | VToken.str a, VToken.str b =>
    if a ≠ b then (if strLt a b then some (-1) else some 1) else none

/-- Tail of the comparison loop after the first token list is exhausted:
the remaining positions compare `int 0` against the second list's token. -/
def comparePadAux : List VToken → Int → Int
  | [], d => d
  | y :: ys, d =>
    match cmpStep (VToken.int 0) y with
    | some r => r
    | none => comparePadAux ys d

/-- The comparison loop of `compare_versions`: missing positions read as
`int 0`; when every position ties the loop falls through and the operator
code difference `d` is returned. -/
def comparePartsAux : List VToken → List VToken → Int → Int
  | [], ys, d => comparePadAux ys d
  | x :: xs, [], d =>
    match cmpStep x (VToken.int 0) with
    | some r => r
    | none => comparePartsAux xs [] d
  | x :: xs, y :: ys, d =>
    match cmpStep x y with
    | some r => r
    | none => comparePartsAux xs ys d

/-- Python `compare_versions`: parse both strings, tokenize the bodies, then run
the loop with the operator-code difference as the all-tie fallback. -/
def compare_versions (v1 v2 : List Char) : Option Int :=
  match parse_version_string v1, parse_version_string v2 with
  | some (c1, p1), some (c2, p2) =>
    some (comparePartsAux (versionTokens p1) (versionTokens p2) (c1 - c2))
  | _, _ => none

/-- The fixed target host version `code_version = '1.77.3'` of the script. -/
def code_version : List Char := "1.77.3".toList

/-- Python `get_package_url`: the unpacking `publisher, package = extension.split('.')` raises
`ValueError` (modelled as `none`) unless the split has exactly two parts;
otherwise the templated gallery URL is built. -/
def get_package_url (extension version : List Char) : Option (List Char) :=
  match extension.splitOn '.' with
  | [publisher, package] =>
    some ("https://".toList ++ publisher ++
      ".gallery.vsassets.io/_apis/public/gallery/publisher/".toList ++
      publisher ++ "/extension/".toList ++ package ++ "/".toList ++
      version ++
      "/assetbyname/Microsoft.VisualStudio.Services.VSIXPackage".toList)
  | _ => none

/-- Python `vsix_url`: the second, textually separate URL builder of the script. -/
def vsix_url (extension version : List Char) : Option (List Char) :=
  match extension.splitOn '.' with
  | [publisher, package] =>
    some ("https://".toList ++ publisher ++
      ".gallery.vsassets.io/_apis/public/gallery/publisher/".toList ++
      publisher ++ "/extension/".toList ++ package ++ "/".toList ++
      version ++
      "/assetbyname/Microsoft.VisualStudio.Services.VSIXPackage".toList)
  | _ => none

/-- The parsed `package.json` of an extension archive, restricted to the
field the script reads: `engines`, a dictionary of string values
(association list, first binding wins as in a dict). -/
structure PackageJson where
  engines : Option (List (List Char × List Char))
deriving DecidableEq

/-- The outside world the script talks to, one function per I/O routine:
`download` models `download_package` (`none` = failed download),
`read_package_json` models the archive extraction and JSON parse
(`none` = unreadable or missing manifest), and `vsce` models the
`vsce show --json` version listing (`none` = the subprocess raising). -/
structure Env where
  download : List Char → Option (List Char)
  read_package_json : List Char → Option PackageJson
  vsce : List Char → Option (List (List Char))

/-- The `"vscode"` key of the `engines` dict. -/
def vscodeKey : List Char := "vscode".toList

/-- Model of `engines["vscode"].split("^")[-1]`: the text after the last caret. -/
def stripCaret (s : List Char) : List Char :=
  (s.splitOn '^').getLastD []

/-- One iteration of the search loop of `extract_compatible_vscode_version`
for a single candidate `version`: `some true` = compatible (break),
`some false` = not compatible (continue with the next version),
`none` = an exception escapes (malformed extension name, or the
comparator raising on the manifest's constraint). -/
def versionCheck (env : Env) (cv extension version : List Char) :
    Option Bool :=
  match get_package_url extension version with
  | none => none
  | some package_url =>
    match env.download package_url with
    | none => some false
    | some package_path =>
      match env.read_package_json package_path with
      | none => some false
      | some package_json =>
        match package_json.engines with
        | none => some false
        | some engines =>
          if engines ≠ [] then
            match engines.lookup vscodeKey with
            | none => some false
            | some value =>
              match compare_versions cv (stripCaret value) with
              | none => none
              | some r => some (0 ≤ r)
          else some false

/-- Python `extract_compatible_vscode_version`: walk the version list newest
first, stop at the first compatible one.  Outer `none` = an exception
escaped the loop; inner `none` = the Python `None` result. -/
def extract_compatible_vscode_version (env : Env) (cv extension : List Char) :
    List (List Char) → Option (Option (List Char))
  | [] => some none
  | version :: rest =>
    match versionCheck env cv extension version with
    | none => none
    | some true => some (some version)
    | some false => extract_compatible_vscode_version env cv extension rest

/-- Observation function: the candidate versions for which the loop body
runs (each one triggers exactly one download attempt), in order. -/
def attemptedVersions (env : Env) (cv extension : List Char) :
    List (List Char) → List (List Char)
  | [] => []
  | version :: rest =>
    match versionCheck env cv extension version with
    | none => [version]
    | some true => [version]
    | some false => version :: attemptedVersions env cv extension rest

/-- Python `get_compatible_version`: list the versions via `vsce`, then search. -/
def get_compatible_version (env : Env) (cv extension : List Char) :
    Option (Option (List Char)) :=
  match env.vsce extension with
  | none => none
  | some versions => extract_compatible_vscode_version env cv extension versions

/-- One persisted record of `compatible_packages.json`. -/
structure ExtensionRecord where
  name : List Char
  version : Option (List Char)
  url : Option (List Char)
deriving DecidableEq

/-- Python `check_compat`: run the search for every extension name and build the
record list; `extension_url` is set only when the resolved version is
truthy (a non-empty string).  `none` = an exception escaped. -/
def check_compat (env : Env) (cv : List Char) :
    List (List Char) → Option (List ExtensionRecord)
  | [] => some []
  | name :: rest =>
    match get_compatible_version env cv name with
    | none => none
    | some compatible_version =>
      match compatible_version with
      | some v =>
        if v ≠ [] then
          match vsix_url name v with
          | none => none
          | some u =>
            match check_compat env cv rest with
            | none => none
            | some recs => some (⟨name, some v, some u⟩ :: recs)
        else
          match check_compat env cv rest with
          | none => none
          | some recs => some (⟨name, some v, none⟩ :: recs)
      | none =>
        match check_compat env cv rest with
        | none => none
        | some recs => some (⟨name, none, none⟩ :: recs)

/-- What the driver's final loop does with one record: download when the
stored version is truthy, else print the no-compatible-version warning. -/
inductive DriverAction where
  | download (name : List Char) (url : Option (List Char))
  | warn (name : List Char)
deriving DecidableEq

/-- The driver's final loop over one record. -/
def driverStep (r : ExtensionRecord) : DriverAction :=
  match r.version with
  | some v => if v ≠ [] then DriverAction.download r.name r.url
              else DriverAction.warn r.name
  | none => DriverAction.warn r.name

/-- The driver's final loop over the whole record list. -/
def driverActions (recs : List ExtensionRecord) : List DriverAction :=
  recs.map driverStep

/-- The string begins with one of the five comparison operators. -/
def startsWithOp (s : List Char) : Bool :=
  comparison_operators.any (fun p => p.1.isPrefixOf s)

/-- All positions of the second list (the first being exhausted) tie
against the padding token `int 0`. -/
def allTiePad : List VToken → Bool
  | [] => true
  | y :: ys => (cmpStep (VToken.int 0) y).isNone && allTiePad ys

/-- Every position of the comparison loop ties (padding included). -/
def allTie : List VToken → List VToken → Bool
  | [], ys => allTiePad ys
  | x :: xs, [] => (cmpStep x (VToken.int 0)).isNone && allTie xs []
  | x :: xs, y :: ys => (cmpStep x y).isNone && allTie xs ys

/-- The token the comparison loop reads at position `i` (missing
positions read as `int 0`). -/
def tokAt (l : List VToken) (i : Nat) : VToken :=
  l.getD i (VToken.int 0)

example : compare_versions "1.2.3".toList "1.2.10".toList = some (-1) := by decide
example : compare_versions ">=1.0.0".toList "1.0.0".toList = some 1 := by decide
example : compare_versions "1.2".toList "1.2.0".toList = some 0 := by decide
example : compare_versions "1.77.3".toList "1.74.0".toList = some 1 := by decide
example : parse_version_string "<=1.0".toList = some (-1, "1.0".toList) := by decide
example : parse_version_string "=<1.0".toList = some (0, "1.0".toList) := by decide
example : parse_version_string "1.0".toList = some (0, "1.0".toList) := by decide
example : parse_version_string "\n<".toList = none := by decide

theorem char_toNat_inj {x y : Char} (h : x.toNat = y.toNat) : x = y :=
  Char.eq_of_val_eq (UInt32.toNat.inj h)

theorem strLt_trichotomy : ∀ a b : List Char,
    a = b ∨ (strLt a b = true ∧ strLt b a = false)
      ∨ (strLt a b = false ∧ strLt b a = true) := by
  intro a
  induction a with
  | nil =>
    intro b
    cases b with
    | nil => exact Or.inl rfl
    | cons y ys => exact Or.inr (Or.inl ⟨rfl, rfl⟩)
  | cons x xs ih =>
    intro b
    cases b with
    | nil => exact Or.inr (Or.inr ⟨rfl, rfl⟩)
    | cons y ys =>
      rcases Nat.lt_trichotomy x.toNat y.toNat with h | h | h
      · refine Or.inr (Or.inl ⟨?_, ?_⟩) <;> simp [strLt, h, Nat.lt_asymm h]
      · have hxy : x = y := char_toNat_inj h
        subst hxy
        rcases ih ys with h2 | h2 | h2
        · exact Or.inl (by rw [h2])
        · exact Or.inr (Or.inl ⟨by simp [strLt, h2.1], by simp [strLt, h2.2]⟩)
        · exact Or.inr (Or.inr ⟨by simp [strLt, h2.1], by simp [strLt, h2.2]⟩)
      · refine Or.inr (Or.inr ⟨?_, ?_⟩) <;> simp [strLt, h, Nat.lt_asymm h]

theorem cmpStep_self (x : VToken) : cmpStep x x = none := by
  cases x <;> simp [cmpStep]

theorem cmpStep_antisym (x y : VToken) :
    cmpStep y x = (cmpStep x y).map (fun r => -r) := by
  cases x with
  | int a =>
    cases y with
    | int b =>
      rcases Nat.lt_trichotomy a b with h | h | h
      · simp [cmpStep, h, Nat.lt_asymm h]
      · subst h; simp [cmpStep]
      · simp [cmpStep, h, Nat.lt_asymm h]
    | str s => simp [cmpStep]
  | str a =>
    cases y with
    | int b => simp [cmpStep]
    | str b =>
      rcases strLt_trichotomy a b with h | ⟨h1, h2⟩ | ⟨h1, h2⟩
      · subst h; simp [cmpStep]
      · have hne : a ≠ b := by
          rintro rfl; rw [h1] at h2; exact Bool.noConfusion h2
        simp [cmpStep, hne, Ne.symm hne, h1, h2]
      · have hne : a ≠ b := by
          rintro rfl; rw [h1] at h2; exact Bool.noConfusion h2
        simp [cmpStep, hne, Ne.symm hne, h1, h2]

theorem comparePartsAux_self (t : List VToken) (d : Int) :
    comparePartsAux t t d = d := by
  induction t with
  | nil => rfl
  | cons x xs ih => simp [comparePartsAux, cmpStep_self, ih]

theorem comparePartsAux_antisym (t1 : List VToken) :
    ∀ (t2 : List VToken) (d : Int),
      comparePartsAux t2 t1 (-d) = -(comparePartsAux t1 t2 d) := by
  induction t1 with
  | nil =>
    intro t2
    induction t2 with
    | nil => intro d; rfl
    | cons y ys ihy =>
      intro d
      cases h : cmpStep (VToken.int 0) y with
      | some r =>
        have hstep : cmpStep y (VToken.int 0) = some (-r) := by
          rw [cmpStep_antisym (VToken.int 0) y, h]; rfl
        simp [comparePartsAux, comparePadAux, h, hstep]
      | none =>
        have hstep : cmpStep y (VToken.int 0) = none := by
          rw [cmpStep_antisym (VToken.int 0) y, h]; rfl
        have := ihy d
        simp only [comparePartsAux, comparePadAux, h, hstep] at *
        exact this
  | cons x xs ih =>
    intro t2
    cases t2 with
    | nil =>
      intro d
      cases h : cmpStep x (VToken.int 0) with
      | some r =>
        have hstep : cmpStep (VToken.int 0) x = some (-r) := by
          rw [cmpStep_antisym x (VToken.int 0), h]; rfl
        simp [comparePartsAux, comparePadAux, h, hstep]
      | none =>
        have hstep : cmpStep (VToken.int 0) x = none := by
          rw [cmpStep_antisym x (VToken.int 0), h]; rfl
        have := ih [] d
        simp only [comparePartsAux, comparePadAux, h, hstep] at *
        exact this
    | cons y ys =>
      intro d
      cases h : cmpStep x y with
      | some r =>
        have hstep : cmpStep y x = some (-r) := by
          rw [cmpStep_antisym x y, h]; rfl
        simp [comparePartsAux, h, hstep]
      | none =>
        have hstep : cmpStep y x = none := by
          rw [cmpStep_antisym x y, h]; rfl
        have := ih ys d
        simp only [comparePartsAux, h, hstep] at *
        exact this

theorem comparePadAux_tie (t : List VToken) (d : Int)
    (h : allTiePad t = true) : comparePadAux t d = d := by
  induction t with
  | nil => rfl
  | cons y ys ih =>
    simp only [allTiePad, Bool.and_eq_true, Option.isNone_iff_eq_none] at h
    simp [comparePadAux, h.1, ih h.2]

theorem comparePartsAux_tie (t1 : List VToken) :
    ∀ (t2 : List VToken) (d : Int),
      allTie t1 t2 = true → comparePartsAux t1 t2 d = d := by
  induction t1 with
  | nil => intro t2 d h; exact comparePadAux_tie t2 d h
  | cons x xs ih =>
    intro t2 d h
    cases t2 with
    | nil =>
      simp only [allTie, Bool.and_eq_true, Option.isNone_iff_eq_none] at h
      simp [comparePartsAux, h.1, ih [] d h.2]
    | cons y ys =>
      simp only [allTie, Bool.and_eq_true, Option.isNone_iff_eq_none] at h
      simp [comparePartsAux, h.1, ih ys d h.2]

theorem comparePadAux_firstDiff :
    ∀ (i : Nat) (t : List VToken) (d r : Int),
      allTiePad (t.take i) = true →
      cmpStep (VToken.int 0) (tokAt t i) = some r →
      comparePadAux t d = r := by
  intro i
  induction i with
  | zero =>
    intro t d r _ hstep
    cases t with
    | nil => rw [tokAt, List.getD_nil, cmpStep_self] at hstep; exact Option.noConfusion hstep
    | cons y ys =>
      rw [tokAt, List.getD_cons_zero] at hstep
      simp [comparePadAux, hstep]
  | succ i ih =>
    intro t d r htie hstep
    cases t with
    | nil => rw [tokAt, List.getD_nil, cmpStep_self] at hstep; exact Option.noConfusion hstep
    | cons y ys =>
      rw [List.take_succ_cons] at htie
      simp only [allTiePad, Bool.and_eq_true, Option.isNone_iff_eq_none] at htie
      rw [tokAt, List.getD_cons_succ] at hstep
      simp [comparePadAux, htie.1]
      exact ih ys d r htie.2 hstep

theorem comparePartsAux_firstDiff :
    ∀ (i : Nat) (t1 t2 : List VToken) (d r : Int),
      allTie (t1.take i) (t2.take i) = true →
      cmpStep (tokAt t1 i) (tokAt t2 i) = some r →
      comparePartsAux t1 t2 d = r := by
  intro i
  induction i with
  | zero =>
    intro t1 t2 d r _ hstep
    cases t1 with
    | nil =>
      exact comparePadAux_firstDiff 0 t2 d r rfl hstep
    | cons x xs =>
      rw [tokAt, List.getD_cons_zero] at hstep
      cases t2 with
      | nil =>
        rw [tokAt, List.getD_nil] at hstep
        simp [comparePartsAux, hstep]
      | cons y ys =>
        rw [tokAt, List.getD_cons_zero] at hstep
        simp [comparePartsAux, hstep]
  | succ i ih =>
    intro t1 t2 d r htie hstep
    cases t1 with
    | nil =>
      refine comparePadAux_firstDiff (i + 1) t2 d r ?_ hstep
      simpa [allTie] using htie
    | cons x xs =>
      rw [tokAt, List.getD_cons_succ] at hstep
      cases t2 with
      | nil =>
        rw [tokAt, List.getD_nil] at hstep
        simp only [List.take_succ_cons, List.take_nil, allTie,
          Bool.and_eq_true, Option.isNone_iff_eq_none] at htie
        simp [comparePartsAux, htie.1]
        exact ih xs [] d r (by simpa using htie.2)
          (by simp only [tokAt, List.getD_nil]; exact hstep)
      | cons y ys =>
        rw [tokAt, List.getD_cons_succ] at hstep
        simp only [List.take_succ_cons, allTie,
          Bool.and_eq_true, Option.isNone_iff_eq_none] at htie
        simp [comparePartsAux, htie.1]
        exact ih xs ys d r htie.2 hstep

theorem containsSub_of_isPrefixOf {p l : List Char} (h : p.isPrefixOf l = true) :
    containsSub p l = true := by
  cases l with
  | nil =>
    cases p with
    | nil => rfl
    | cons c cs => exact Bool.noConfusion h
  | cons c cs => simp [containsSub, h]

theorem takeWhile_ne_newline {l : List Char} (h : '\n' ∉ l) :
    l.takeWhile (fun c => c ≠ '\n') = l := by
  induction l with
  | nil => rfl
  | cons c cs ih =>
    have hc : c ≠ '\n' := fun hc => h (by rw [← hc]; exact List.mem_cons_self c cs)
    have hcs : '\n' ∉ cs := fun hm => h (List.mem_cons_of_mem c hm)
    have hcond : (decide (c ≠ '\n')) = true := by simp [hc]
    simp only [List.takeWhile_cons, hcond, if_true]
    rw [ih hcs]

theorem takeWhile_append_of_all {p : Char → Bool} {l1 l2 : List Char}
    (h1 : l1.all p = true) (h2 : ∀ c, l2.head? = some c → p c = false) :
    (l1 ++ l2).takeWhile p = l1 := by
  induction l1 with
  | nil =>
    cases l2 with
    | nil => rfl
    | cons c cs => simp [List.takeWhile_cons, h2 c rfl]
  | cons a as ih =>
    simp only [List.all_cons, Bool.and_eq_true] at h1
    simp [List.takeWhile_cons, h1.1, ih h1.2]

theorem parse_version_string_op (op rest : List Char) (code : Int) (c : Char)
    (hkey : comparison_operators.lookup op = some code)
    (hmem : (op, code) ∈ comparison_operators)
    (hall : op.all isOpChar = true)
    (hne : op ≠ [])
    (hc : rest.head? = some c) (hcop : isOpChar c = false) (hcnl : c ≠ '\n') :
    parse_version_string (op ++ rest) =
      some (code, rest.takeWhile (fun ch => ch ≠ '\n')) := by
  obtain ⟨rest', rfl⟩ : ∃ rest', rest = c :: rest' := by
    cases rest with
    | nil => exact Option.noConfusion hc
    | cons a l => exact ⟨l, by rw [Option.some.inj hc]⟩
  have hany : comparison_operators.any
      (fun p => containsSub p.1 (op ++ c :: rest')) = true := by
    rw [List.any_eq_true]
    refine ⟨(op, code), hmem, containsSub_of_isPrefixOf ?_⟩
    rw [List.isPrefixOf_iff_prefix]
    exact ⟨c :: rest', rfl⟩
  have htw : (op ++ c :: rest').takeWhile isOpChar = op :=
    takeWhile_append_of_all hall
      (fun ch hch => (Option.some.inj hch) ▸ hcop)
  have hklen : op.length < (op ++ c :: rest').length := by
    rw [List.length_append]; simp
  have hgetd : (op ++ c :: rest').getD op.length '\n' = c := by
    rw [List.getD_append_right op (c :: rest') '\n' op.length (Nat.le_refl _)]
    simp
  have hregex : regexMatch (op ++ c :: rest') =
      some (op, (c :: rest').takeWhile (fun ch => ch ≠ '\n')) := by
    unfold regexMatch
    simp only [htw]
    rw [if_pos ⟨hklen, by rw [hgetd]; exact hcnl⟩]
    rw [List.take_left, List.drop_left]
  unfold parse_version_string
  rw [if_pos hany, hregex]
  show some ((comparison_operators.lookup op).getD 0, _) = _
  rw [hkey]
  rfl

/-- Claim C4, counterexample: the input `"=<1.0"` carries no leading
operator from the five-operator set, yet the parser does not return it
unchanged: the substring-based operator detection fires on the embedded
`<` and the regex strips the leading `=<` run, returning `(0, "1.0")`. -/
theorem parse_version_string_counterexample :
    parse_version_string "=<1.0".toList = some (0, "1.0".toList) ∧
    startsWithOp "=<1.0".toList = false ∧
    "1.0".toList ≠ "=<1.0".toList := by
  refine ⟨by decide, by decide, by decide⟩

/-- Claim C4 (amended): when none of the five operators occurs anywhere in
the string, the parser returns code `0` with the string unchanged; and
when the string is one of the five operators followed by a body that
starts with a non-operator character and contains no newline, the parser
returns that operator's code with the body.  (For other strings the
maximal leading `[<>=]` run is stripped and looked up as a whole, which
is what the counterexample exhibits.) -/
theorem parse_version_string_amended (s : List Char) :
    ((∀ p ∈ comparison_operators, containsSub p.1 s = false) →
      parse_version_string s = some (0, s)) ∧
    (∀ op code rest c, (op, code) ∈ comparison_operators →
      s = op ++ rest → rest.head? = some c → isOpChar c = false →
      '\n' ∉ rest → parse_version_string s = some (code, rest)) := by
  constructor
  · intro h
    unfold parse_version_string
    rw [if_neg]
    rw [List.any_eq_true]
    rintro ⟨p, hp, hcontains⟩
    rw [h p hp] at hcontains
    exact Bool.noConfusion hcontains
  · intro op code rest c hmem hs hc hcop hnl
    subst hs
    have hcnl : c ≠ '\n' := by
      intro hceq
      exact hnl (by rw [← hceq]; exact List.mem_of_mem_head? hc)
    have hres := parse_version_string_op op rest code c ?_ hmem ?_ ?_ hc hcop hcnl
    · rw [hres, takeWhile_ne_newline hnl]
    · fin_cases hmem <;> decide
    · fin_cases hmem <;> decide
    · fin_cases hmem <;> decide

/-- Claim C4 witness: both halves of the amended statement applied at
concrete inputs: `"1.2.3"` contains no operator and is returned
unchanged; `"<=1.0"` is the operator `<=` followed by the body `"1.0"`. -/
theorem parse_version_string_amended_witness :
    parse_version_string "1.2.3".toList = some (0, "1.2.3".toList) ∧
    parse_version_string "<=1.0".toList = some (-1, "1.0".toList) :=
  ⟨(parse_version_string_amended "1.2.3".toList).1 (by decide),
   (parse_version_string_amended "<=1.0".toList).2 "<=".toList (-1) "1.0".toList '1'
     (by decide) rfl rfl (by decide) (by decide)⟩

theorem compare_versions_eq (a b : List Char) (c1 c2 : Int) (p1 p2 : List Char)
    (h1 : parse_version_string a = some (c1, p1))
    (h2 : parse_version_string b = some (c2, p2)) :
    compare_versions a b =
      some (comparePartsAux (versionTokens p1) (versionTokens p2) (c1 - c2)) := by
  unfold compare_versions
  rw [h1, h2]

theorem compare_versions_defined (a b : List Char) (x : Int)
    (h : compare_versions a b = some x) :
    ∃ c1 p1 c2 p2, parse_version_string a = some (c1, p1) ∧
      parse_version_string b = some (c2, p2) := by
  unfold compare_versions at h
  cases ha : parse_version_string a with
  | none => rw [ha] at h; exact Option.noConfusion h
  | some cp1 =>
    obtain ⟨c1, p1⟩ := cp1
    cases hb : parse_version_string b with
    | none => rw [ha, hb] at h; exact Option.noConfusion h
    | some cp2 =>
      obtain ⟨c2, p2⟩ := cp2
      exact ⟨c1, p1, c2, p2, rfl, rfl⟩

/-- Claim C5, counterexample: `"\n<"` carries no operator prefix, yet
`compare_versions("\n<", "\n<")` does not return `0`: the operator
detection fires on the embedded `<`, the regex fails on the leading
newline, and the script raises `AttributeError` (modelled as `none`). -/
theorem compare_versions_antisym_counterexample :
    startsWithOp "\n<".toList = false ∧
    compare_versions "\n<".toList "\n<".toList = none ∧
    compare_versions "\n<".toList "\n<".toList ≠ some 0 := by
  refine ⟨by decide, by decide, by decide⟩

/-- Claim C5 (amended): for all version strings `a`, `b` with no operator
prefix on which the comparator returns a result (its operator-stripping
regex can fail on strings that contain an operator character but start
with a newline, raising an exception), the results of `compare_versions`
in the two orders are exact negatives of each other, and
`compare_versions(a, a)` is `0`. -/
theorem compare_versions_antisym_amended (a b : List Char)
    (ha : startsWithOp a = false) (hb : startsWithOp b = false)
    (x y : Int) (hx : compare_versions a b = some x)
    (hy : compare_versions b a = some y) :
    y = -x ∧ compare_versions a a = some 0 := by
  obtain ⟨c1, p1, c2, p2, hpa, hpb⟩ := compare_versions_defined a b x hx
  rw [compare_versions_eq a b c1 c2 p1 p2 hpa hpb] at hx
  rw [compare_versions_eq b a c2 c1 p2 p1 hpb hpa] at hy
  have hx' := Option.some.inj hx
  have hy' := Option.some.inj hy
  constructor
  · rw [← hx', ← hy']
    have hneg : c2 - c1 = -(c1 - c2) := by ring
    rw [hneg, comparePartsAux_antisym]
  · rw [compare_versions_eq a a c1 c1 p1 p1 hpa hpa, comparePartsAux_self]
    simp

/-- Claim C5 witness: the amended statement applied at `a = "1.2"`,
`b = "1.10"`, where `compare_versions a b = -1` and
`compare_versions b a = 1`. -/
theorem compare_versions_antisym_amended_witness :
    ((1 : Int) = -(-1)) ∧
    compare_versions "1.2".toList "1.2".toList = some 0 :=
  compare_versions_antisym_amended "1.2".toList "1.10".toList
    (by decide) (by decide) (-1) 1 (by decide) (by decide)

/-- Claim C6: when both strings parse and their token sequences tie at
every position of the comparison loop (padding included),
`compare_versions` returns the difference of the two operator codes; in
particular `compare_versions(">=1.0.0", "1.0.0")` is positive. -/
theorem compare_versions_tie_operator_codes (a b : List Char)
    (c1 c2 : Int) (p1 p2 : List Char)
    (h1 : parse_version_string a = some (c1, p1))
    (h2 : parse_version_string b = some (c2, p2))
    (htie : allTie (versionTokens p1) (versionTokens p2) = true) :
    compare_versions a b = some (c1 - c2) ∧
    ∃ r, compare_versions ">=1.0.0".toList "1.0.0".toList = some r ∧ 0 < r := by
  constructor
  · rw [compare_versions_eq a b c1 c2 p1 p2 h1 h2,
      comparePartsAux_tie _ _ _ htie]
  · exact ⟨1, by decide, by decide⟩

/-- Claim C6 witness: applied at `">=1.0.0"` versus `"1.0.0"`, whose
bodies tie at every token position, giving `1 - 0 = 1`. -/
theorem compare_versions_tie_operator_codes_witness :
    compare_versions ">=1.0.0".toList "1.0.0".toList = some (1 - 0) ∧
    ∃ r, compare_versions ">=1.0.0".toList "1.0.0".toList = some r ∧ 0 < r :=
  compare_versions_tie_operator_codes ">=1.0.0".toList "1.0.0".toList 1 0
    "1.0.0".toList "1.0.0".toList (by decide) (by decide) (by decide)

/-- Claim C7: all-digit tokens are compared numerically, not lexically:
`compare_versions("1.2.3", "1.2.10")` is `-1` (less), even though as
strings `"10" < "3"` lexically. -/
theorem compare_versions_numeric_tokens :
    compare_versions "1.2.3".toList "1.2.10".toList = some (-1) ∧
    strLt "3".toList "10".toList = false ∧
    strLt "10".toList "3".toList = true := by
  refine ⟨by decide, by decide, by decide⟩

/-- Claim C8: at the first token position where the two compared tokens
differ, if exactly one of them is an integer token, `compare_versions`
treats the integer side as the lesser one: it returns `-1` when the
first string's token is the integer and `1` when the second's is,
regardless of the tokens' lexical order. -/
theorem compare_versions_mixed_token_rule (a b : List Char)
    (c1 c2 : Int) (p1 p2 : List Char) (i : Nat)
    (h1 : parse_version_string a = some (c1, p1))
    (h2 : parse_version_string b = some (c2, p2))
    (htie : allTie ((versionTokens p1).take i) ((versionTokens p2).take i) = true) :
    (∀ n s, tokAt (versionTokens p1) i = VToken.int n →
      tokAt (versionTokens p2) i = VToken.str s →
      compare_versions a b = some (-1)) ∧
    (∀ n s, tokAt (versionTokens p1) i = VToken.str s →
      tokAt (versionTokens p2) i = VToken.int n →
      compare_versions a b = some 1) := by
  constructor
  · intro n s hn hs
    rw [compare_versions_eq a b c1 c2 p1 p2 h1 h2,
      comparePartsAux_firstDiff i _ _ _ (-1) htie (by rw [hn, hs]; rfl)]
  · intro n s hs hn
    rw [compare_versions_eq a b c1 c2 p1 p2 h1 h2,
      comparePartsAux_firstDiff i _ _ _ 1 htie (by rw [hs, hn]; rfl)]

/-- Claim C8 witness: `"1.5"` versus `"1.5a"` ties at position 0 and at
position 1 compares the integer token `5` against the string token
`"5a"`; the integer side loses, so the comparison returns `-1`. -/
theorem compare_versions_mixed_token_rule_witness :
    compare_versions "1.5".toList "1.5a".toList = some (-1) :=
  (compare_versions_mixed_token_rule "1.5".toList "1.5a".toList 0 0
    "1.5".toList "1.5a".toList 1 (by decide) (by decide) (by decide)).1
    5 "5a".toList (by decide) (by decide)

/-- Claim C1: when the version list splits as `pre ++ v :: post` with
every version of `pre` failing the per-version compatibility check and
`v` passing it (i.e. `v` is the first version whose downloaded manifest
declares a constraint satisfied by the target), the search returns `v`,
and the loop body runs exactly for `pre ++ [v]`: no version after the
first match is evaluated. -/
theorem extract_compatible_first_match (env : Env) (cv ext v : List Char)
    (post : List (List Char)) :
    ∀ pre : List (List Char),
      (∀ u ∈ pre, versionCheck env cv ext u = some false) →
      versionCheck env cv ext v = some true →
      extract_compatible_vscode_version env cv ext (pre ++ v :: post) =
        some (some v) ∧
      attemptedVersions env cv ext (pre ++ v :: post) = pre ++ [v] := by
  intro pre
  induction pre with
  | nil =>
    intro _ hv
    constructor
    · simp only [List.nil_append, extract_compatible_vscode_version, hv]
    · simp only [List.nil_append, attemptedVersions, hv]
  | cons u us ih =>
    intro hpre hv
    have hu : versionCheck env cv ext u = some false :=
      hpre u (List.mem_cons_self u us)
    have hrec := ih (fun w hw => hpre w (List.mem_cons_of_mem u hw)) hv
    constructor
    · simp only [List.cons_append, extract_compatible_vscode_version, hu]
      exact hrec.1
    · simp only [List.cons_append, attemptedVersions, hu]
      exact congrArg (fun l => u :: l) hrec.2

/-- Sample world for the first-match claim: every download succeeds, and
the manifests declare `^1.99.0` for version `2.0.0` (too new for the
target `1.77.3`), `^1.74.0` for `1.5.0` (satisfied), `^1.0.0` otherwise. -/
def demoEnvC1 : Env where
  download := fun url => some url
  read_package_json := fun p =>
    if p = (get_package_url "p.q".toList "2.0.0".toList).getD [] then
      some ⟨some [(vscodeKey, "^1.99.0".toList)]⟩
    else if p = (get_package_url "p.q".toList "1.5.0".toList).getD [] then
      some ⟨some [(vscodeKey, "^1.74.0".toList)]⟩
    else
      some ⟨some [(vscodeKey, "^1.0.0".toList)]⟩
  vsce := fun _ => some ["2.0.0".toList, "1.5.0".toList, "1.0.0".toList]

/-- Claim C1 witness: over `["2.0.0", "1.5.0", "1.0.0"]` where only
`1.5.0`'s manifest satisfies the target, the search returns `1.5.0` and
never evaluates `1.0.0`. -/
theorem extract_compatible_first_match_witness :
    extract_compatible_vscode_version demoEnvC1 code_version "p.q".toList
      ["2.0.0".toList, "1.5.0".toList, "1.0.0".toList] =
      some (some "1.5.0".toList) ∧
    attemptedVersions demoEnvC1 code_version "p.q".toList
      ["2.0.0".toList, "1.5.0".toList, "1.0.0".toList] =
      ["2.0.0".toList, "1.5.0".toList] :=
  extract_compatible_first_match demoEnvC1 code_version "p.q".toList
    "1.5.0".toList ["1.0.0".toList] ["2.0.0".toList] (by decide) (by decide)

/-- Claim C2: a candidate whose download fails, or whose downloaded
archive yields no readable manifest, is treated as not compatible: the
search result on `v :: rest` equals the result on `rest` (the failure is
not fatal), and the loop body runs exactly once for `v` (no retry). -/
theorem extract_compatible_skips_failed_candidate (env : Env)
    (cv ext v : List Char) (rest : List (List Char)) (url : List Char)
    (hurl : get_package_url ext v = some url)
    (hfail : env.download url = none ∨
      ∃ p, env.download url = some p ∧ env.read_package_json p = none) :
    extract_compatible_vscode_version env cv ext (v :: rest) =
      extract_compatible_vscode_version env cv ext rest ∧
    attemptedVersions env cv ext (v :: rest) =
      v :: attemptedVersions env cv ext rest := by
  have hvc : versionCheck env cv ext v = some false := by
    unfold versionCheck
    rcases hfail with hdown | ⟨p, hdown, hread⟩
    · simp only [hurl, hdown]
    · simp only [hurl, hdown, hread]
  constructor
  · simp only [extract_compatible_vscode_version, hvc]
  · simp only [attemptedVersions, hvc]

/-- Sample world where every download fails and `vsce` lists two
versions. -/
def demoEnvC3 : Env where
  download := fun _ => none
  read_package_json := fun _ => none
  vsce := fun _ => some ["2.0.0".toList, "1.0.0".toList]

/-- Claim C2 witness: a download failure on the first candidate `2.0.0`
falls through to the rest of the list and attempts `2.0.0` once. -/
theorem extract_compatible_skips_failed_candidate_witness :
    extract_compatible_vscode_version demoEnvC3 code_version "p.q".toList
      ["2.0.0".toList, "1.0.0".toList] =
      extract_compatible_vscode_version demoEnvC3 code_version "p.q".toList
        ["1.0.0".toList] ∧
    attemptedVersions demoEnvC3 code_version "p.q".toList
      ["2.0.0".toList, "1.0.0".toList] =
      "2.0.0".toList :: attemptedVersions demoEnvC3 code_version "p.q".toList
        ["1.0.0".toList] :=
  extract_compatible_skips_failed_candidate demoEnvC3 code_version "p.q".toList
    "2.0.0".toList ["1.0.0".toList]
    ((get_package_url "p.q".toList "2.0.0".toList).getD [])
    (by decide) (Or.inl rfl)

theorem extract_exhausted (env : Env) (cv ext : List Char) :
    ∀ versions, (∀ u ∈ versions, versionCheck env cv ext u = some false) →
      extract_compatible_vscode_version env cv ext versions = some none := by
  intro versions
  induction versions with
  | nil => intro _; rfl
  | cons u us ih =>
    intro h
    have hu := h u (List.mem_cons_self u us)
    simp only [extract_compatible_vscode_version, hu]
    exact ih (fun w hw => h w (List.mem_cons_of_mem u hw))

/-- Claim C3: when no version of the list passes the compatibility check,
the search returns the null result without raising, the compatibility
pass records the extension with null version and url, and the driver's
final loop emits the warning action (and no download) for it. -/
theorem extract_compatible_exhaustion_warns (env : Env) (cv ext : List Char)
    (versions : List (List Char))
    (hall : ∀ u ∈ versions, versionCheck env cv ext u = some false)
    (hvsce : env.vsce ext = some versions) :
    extract_compatible_vscode_version env cv ext versions = some none ∧
    check_compat env cv [ext] = some [⟨ext, none, none⟩] ∧
    driverActions [⟨ext, none, none⟩] = [DriverAction.warn ext] := by
  have hex := extract_exhausted env cv ext versions hall
  have hg : get_compatible_version env cv ext = some none := by
    unfold get_compatible_version
    rw [hvsce]
    exact hex
  refine ⟨hex, ?_, rfl⟩
  simp only [check_compat, hg]

/-- Claim C3 witness: with every download failing, the search over
`["2.0.0", "1.0.0"]` returns the null result, the record is all-null,
and the driver warns instead of downloading. -/
theorem extract_compatible_exhaustion_warns_witness :
    extract_compatible_vscode_version demoEnvC3 code_version "p.q".toList
      ["2.0.0".toList, "1.0.0".toList] = some none ∧
    check_compat demoEnvC3 code_version ["p.q".toList] =
      some [⟨"p.q".toList, none, none⟩] ∧
    driverActions [⟨"p.q".toList, none, none⟩] =
      [DriverAction.warn "p.q".toList] :=
  extract_compatible_exhaustion_warns demoEnvC3 code_version "p.q".toList
    ["2.0.0".toList, "1.0.0".toList] (by decide) rfl

/-- Sample world for the record invariant: the registry lists the single
version `""` (the empty string), its download succeeds and its manifest
declares the always-satisfied constraint `0.0.1`. -/
def demoEnvC9 : Env where
  download := fun url => some url
  read_package_json := fun _ => some ⟨some [(vscodeKey, "0.0.1".toList)]⟩
  vsce := fun _ => some [[]]

/-- Claim C9, counterexample: when the resolved compatible version is the
empty string, the persisted record has a non-null version but a null url
(the url is only set when the version is truthy), so "url non-null iff
version non-null" fails. -/
theorem check_compat_url_version_counterexample :
    check_compat demoEnvC9 code_version ["p.q".toList] =
      some [⟨"p.q".toList, some [], none⟩] ∧
    ¬ (((⟨"p.q".toList, some [], none⟩ : ExtensionRecord).url.isSome = true) ↔
       ((⟨"p.q".toList, some [], none⟩ : ExtensionRecord).version.isSome = true)) := by
  refine ⟨by decide, by decide⟩

/-- Claim C9 (amended): in every record list produced by the
compatibility pass, a record's url is non-null if and only if its
version is non-null AND non-empty (a truthy Python string); a partial
match with a truthy version is never persisted. -/
theorem check_compat_url_version_amended (env : Env) (cv : List Char) :
    ∀ (names : List (List Char)) (recs : List ExtensionRecord),
      check_compat env cv names = some recs →
      ∀ r ∈ recs, (r.url.isSome = true ↔ ∃ v, r.version = some v ∧ v ≠ []) := by
  intro names
  induction names with
  | nil =>
    intro recs h r hr
    simp only [check_compat] at h
    obtain rfl : ([] : List ExtensionRecord) = recs := Option.some.inj h
    exact absurd hr (List.not_mem_nil r)
  | cons name rest ih =>
    intro recs h r hr
    cases hg : get_compatible_version env cv name with
    | none =>
      rw [check_compat, hg] at h
      exact Option.noConfusion h
    | some cvv =>
      cases cvv with
      | none =>
        cases hrest : check_compat env cv rest with
        | none =>
          rw [check_compat, hg] at h
          simp only [hrest] at h
          exact Option.noConfusion h
        | some recs' =>
          rw [check_compat, hg] at h
          simp only [hrest] at h
          obtain rfl := Option.some.inj h
          rcases List.mem_cons.mp hr with rfl | hmem
          · simp
          · exact ih recs' hrest r hmem
      | some v =>
        by_cases hv : v = []
        · subst hv
          cases hrest : check_compat env cv rest with
          | none =>
            simp [check_compat, hg, hrest] at h
          | some recs' =>
            simp [check_compat, hg, hrest] at h
            subst h
            rcases List.mem_cons.mp hr with rfl | hmem
            · simp
            · exact ih recs' hrest r hmem
        · cases hurl : vsix_url name v with
          | none =>
            simp [check_compat, hg, hv, hurl] at h
          | some u =>
            cases hrest : check_compat env cv rest with
            | none =>
              simp [check_compat, hg, hv, hurl, hrest] at h
            | some recs' =>
              simp [check_compat, hg, hv, hurl, hrest] at h
              subst h
              rcases List.mem_cons.mp hr with rfl | hmem
              · simp [hv]
              · exact ih recs' hrest r hmem

/-- Claim C9 witness: the amended invariant applied to the
empty-version world, whose single record has version `""` and null url:
both sides of the iff are false. -/
theorem check_compat_url_version_amended_witness :
    ((⟨"p.q".toList, some [], none⟩ : ExtensionRecord).url.isSome = true ↔
      ∃ v, (⟨"p.q".toList, some [], none⟩ : ExtensionRecord).version = some v ∧
        v ≠ []) :=
  check_compat_url_version_amended demoEnvC9 code_version ["p.q".toList]
    [⟨"p.q".toList, some [], none⟩] (by decide)
    ⟨"p.q".toList, some [], none⟩ (List.mem_cons_self _ _)

/-- Claim C10: for every extension name that splits on `.` into exactly
two parts (the `publisher.package` form) and every version, the two URL
builders `get_package_url` and `vsix_url` return the identical download
URL. -/
theorem get_package_url_eq_vsix_url (extension version : List Char)
    (h : (extension.splitOn '.').length = 2) :
    get_package_url extension version = vsix_url extension version ∧
    ∃ u, get_package_url extension version = some u := by
  unfold get_package_url vsix_url
  cases hs : extension.splitOn '.' with
  | nil => rw [hs] at h; exact absurd h (by decide)
  | cons a t =>
    cases t with
    | nil => rw [hs] at h; simp at h
    | cons b t2 =>
      cases t2 with
      | nil => exact ⟨rfl, _, rfl⟩
      | cons c t3 => rw [hs] at h; simp at h

/-- Claim C10 witness: the two builders agree on
`ms-python.python` at version `2023.1.0`. -/
theorem get_package_url_eq_vsix_url_witness :
    get_package_url "ms-python.python".toList "2023.1.0".toList =
      vsix_url "ms-python.python".toList "2023.1.0".toList ∧
    ∃ u, get_package_url "ms-python.python".toList "2023.1.0".toList = some u :=
  get_package_url_eq_vsix_url "ms-python.python".toList "2023.1.0".toList
    (by decide)

end Vsix
